import Mathlib

/-!
Verification development for the `dbms_sql` dynamic-SQL module
(`src/dbms_sql.c` of okbob/orafce_sql): a shallow embedding of the
tokenizer/rewriter, the cursor registry, the bind/column metadata tables,
the execute parameter assembly, and the fetch buffering policy, together
with theorems settling the specification claims.

Modelling conventions:
* C strings are `List Char`; the byte-oriented scan of the C code is
  reproduced character by character (the source itself notes it does not
  handle multibyte encodings specially).
* `Datum` values are modelled as opaque `Nat` payloads.
* `palloc0`-initialized structs are records whose fields default to zero
  values; `memset(c, 0, ...)` is the record `zeroCursor`.
* `elog(ERROR)` aborts the calling operation but session-lifetime memory
  mutations already performed persist; operations that mutate cursor state
  before a possible error therefore return `Except (DbErr × CursorData) _`
  where the error carries the state as mutated at the point of the error.
* External collaborators (type catalog, SPI engine) are parameters: the
  catalog is a `Catalog` record of lookup functions, and the engine row
  source behind an open portal is a total row count `k` from which
  `SPI_cursor_fetch(portal, true, 10)` delivers the next `min 10 (k - fetched)`
  rows (spec section 6).
-/

namespace DS

/-- Token classes of the hand-written lexer (`TokenType`, dbms_sql.c:98-112). -/
inductive TokenType where
  | spaces
  | comment
  | number
  | bindVar
  | str
  | extStr
  | dolarStr
  | identif
  | qidentif
  | doubleColon
  | other
  | none
deriving DecidableEq, Repr

/-- One token produced by `next_token`: its class, value span (`*start`/`*len`),
dollar-quote separator (`*sep`/`*seplen`), plus two ghost fields used only to
state properties: `raw` is the full consumed slice of the input and `term`
records whether the token's closing delimiter was found (`true` for token
classes that have no closing delimiter). -/
structure Token where
  typ : TokenType
  tok : List Char
  sep : List Char
  raw : List Char
  term : Bool
deriving DecidableEq, Repr

/-- `is_identif` (dbms_sql.c:972-983): ASCII letters and high-bit characters. -/
def is_identif (c : Char) : Bool :=
  decide (('a' ≤ c ∧ c ≤ 'z') ∨ ('A' ≤ c ∧ c ≤ 'Z') ∨ 128 ≤ c.toNat)

/-- Characters allowed inside identifiers, bind names and dollar-quote tags:
`is_identif(c) || isdigit(c) || c == '_'`. -/
def identChar (c : Char) : Bool :=
  is_identif c || c.isDigit || c == '_'

/-- Guard of the dollar-string branch (dbms_sql.c:1009):
`str[1] == '$' || is_identif(str[1]) || str[1] == '_'`. -/
def dollarGuard : List Char → Bool
  | [] => false
  | d :: _ => d == '$' || is_identif d || d == '_'

/-- `isdigit(str[1])` part of the number branch guard (dbms_sql.c:1085). -/
def digitStart : List Char → Bool
  | [] => false
  | d :: _ => d.isDigit

/-- Guard of the bind-variable branch (dbms_sql.c:1113-1114):
`is_identif(str[1]) || str[1] == '_'`. -/
def bindStart : List Char → Bool
  | [] => false
  | d :: _ => is_identif d || d == '_'

/-- `str[1] == ch` on a possibly-empty remainder. -/
def headIs (ch : Char) : List Char → Bool
  | [] => false
  | d :: _ => d == ch

/-- The tag scan of the dollar-string branch (dbms_sql.c:1017-1033): walk from
`str+1` over identifier/digit/underscore characters; `some t` when the closing
`$` of the opening separator is found after `t` tag characters, `none` when a
non-tag character or the end of input is hit first. -/
def scanDollarTag : List Char → Option Nat
  | [] => none
  | c :: cs =>
    if c == '$' then some 0
    else if identChar c then (scanDollarTag cs).map (· + 1)
    else none

/-- `strstr` (dbms_sql.c:1050): index of the first occurrence of `pat`. -/
def findSubstr (pat : List Char) : List Char → Option Nat
  | [] => if pat.isEmpty then some 0 else none
  | c :: cs => if pat.isPrefixOf (c :: cs) then some 0 else (findSubstr pat cs).map (· + 1)

/-- Scan of a `/* ... */` comment body after the opening `/*`
(dbms_sql.c:1070-1079): returns the consumed part (including the closing `*/`
when found; everything to the end of input otherwise) and the rest. -/
def commentRest : List Char → List Char × List Char
  | [] => ([], [])
  | c :: cs =>
    if c == '*' && headIs '/' cs then
      ([c, '/'], cs.tail)
    else
      let r := commentRest cs
      (c :: r.1, r.2)

/-- Number scan after the first character (dbms_sql.c:1089-1100): digits plus
at most one decimal point (`point` records whether one was already seen). -/
def scanNumber (point : Bool) : List Char → List Char × List Char
  | [] => ([], [])
  | c :: cs =>
    if c.isDigit then
      let r := scanNumber point cs
      (c :: r.1, r.2)
    else if c == '.' && !point then
      let r := scanNumber true cs
      (c :: r.1, r.2)
    else ([], c :: cs)

/-- Extended-string body scan after `e'` (dbms_sql.c:1133-1150): `\'` and `\\`
are consumed as escapes; returns (content, rest, closing-quote-found). -/
def scanExt : List Char → List Char × List Char × Bool
  | [] => ([], [], false)
  | '\'' :: cs => ([], cs, true)
  | '\\' :: c2 :: cs2 =>
    if c2 == '\'' || c2 == '\\' then
      let r := scanExt cs2
      ('\\' :: c2 :: r.1, r.2.1, r.2.2)
    else
      let r := scanExt (c2 :: cs2)
      ('\\' :: r.1, r.2.1, r.2.2)
  | c :: cs =>
    let r := scanExt cs
    (c :: r.1, r.2.1, r.2.2)

/-- Body scan of a quoted construct with delimiter `q` and doubled-delimiter
escaping (strings dbms_sql.c:1156-1172, quoted identifiers 1178-1194):
returns (content, rest, closing-delimiter-found). -/
def scanQuoted (q : Char) : List Char → List Char × List Char × Bool
  | [] => ([], [], false)
  | c :: cs =>
    if c == q then
      match cs with
      | c2 :: cs2 =>
        if c2 == q then
          let r := scanQuoted q cs2
          (c :: c2 :: r.1, r.2.1, r.2.2)
        else ([], c2 :: cs2, true)
      | [] => ([], [], true)
    else
      let r := scanQuoted q cs
      (c :: r.1, r.2.1, r.2.2)

/-- `next_token` (dbms_sql.c:988-1217): classify and consume the next token.
`none` corresponds to `TOKEN_NONE`/`NULL` at the end of input. Branches appear
in the order of the C code; the `raw`/`term` fields are ghost instrumentation
(see `Token`), everything else mirrors the pointer arithmetic of the source. -/
def next_token (s : List Char) : Option (Token × List Char) :=
  match s with
  | [] => none
  | c :: cs =>
    if c == ' ' then
      some ({ typ := .spaces, tok := [' '], sep := [],
              raw := c :: cs.takeWhile (fun x => x == ' '), term := true },
            cs.dropWhile (fun x => x == ' '))
    else if c == '$' && dollarGuard cs then
      match scanDollarTag cs with
      | Option.none =>
        some ({ typ := .other, tok := [c], sep := [], raw := [c], term := true }, cs)
      | Option.some t =>
        let sep : List Char := '$' :: (cs.take t ++ ['$'])
        let aux := cs.drop (t + 1)
        match findSubstr sep aux with
        | Option.some idx =>
          some ({ typ := .dolarStr, tok := aux.take idx, sep := sep,
                  raw := sep ++ aux.take idx ++ sep, term := true },
                aux.drop (idx + sep.length))
        | Option.none =>
          some ({ typ := .dolarStr, tok := aux, sep := sep,
                  raw := sep ++ aux, term := false }, [])
    else if c == '/' && headIs '*' cs then
      let r := commentRest cs.tail
      some ({ typ := .comment, tok := '/' :: '*' :: r.1, sep := [],
              raw := '/' :: '*' :: r.1, term := true }, r.2)
    else if c.isDigit || (c == '.' && digitStart cs) then
      let r := scanNumber (c == '.') cs
      some ({ typ := .number, tok := c :: r.1, sep := [],
              raw := c :: r.1, term := true }, r.2)
    else if c == ':' && headIs ':' cs then
      some ({ typ := .doubleColon, tok := [':', ':'], sep := [],
              raw := [':', ':'], term := true }, cs.tail)
    else if c == ':' && bindStart cs then
      some ({ typ := .bindVar, tok := cs.take 1 ++ cs.tail.takeWhile identChar, sep := [],
              raw := ':' :: (cs.take 1 ++ cs.tail.takeWhile identChar), term := true },
            cs.tail.dropWhile identChar)
    else if (c == 'e' || c == 'E') && headIs '\'' cs then
      let r := scanExt cs.tail
      some ({ typ := .extStr, tok := r.1, sep := [],
              raw := c :: '\'' :: (r.1 ++ (if r.2.2 then ['\''] else [])), term := r.2.2 },
            r.2.1)
    else if c == '\'' then
      let r := scanQuoted '\'' cs
      some ({ typ := .str, tok := r.1, sep := [],
              raw := '\'' :: (r.1 ++ (if r.2.2 then ['\''] else [])), term := r.2.2 },
            r.2.1)
    else if c == '"' then
      let r := scanQuoted '"' cs
      some ({ typ := .qidentif, tok := r.1, sep := [],
              raw := '"' :: (r.1 ++ (if r.2.2 then ['"'] else [])), term := r.2.2 },
            r.2.1)
    else if is_identif c || c == '_' then
      some ({ typ := .identif, tok := c :: cs.takeWhile identChar, sep := [],
              raw := c :: cs.takeWhile identChar, term := true },
            cs.dropWhile identChar)
    else
      some ({ typ := .other, tok := [c], sep := [], raw := [c], term := true }, cs)

/-- Bind variable data (`VariableData`, dbms_sql.c:26-39). `value` is the
opaque `Datum` payload; `palloc0` zeroes every field not set by `get_var`. -/
structure VariableData where
  refname : List Char
  position : Int := 0
  value : Nat := 0
  typoid : Nat := 0
  typbyval : Bool := false
  typlen : Int := 0
  isnull : Bool := false
  varno : Nat := 0
deriving DecidableEq, Repr

/-- Query result column definition (`ColumnData`, dbms_sql.c:44-53);
`palloc0` zeroes every field not set by `get_col`. -/
structure ColumnData where
  position : Int := 0
  typoid : Nat := 0
  typbyval : Bool := false
  typlen : Int := 0
  typmod : Int := 0
  typisstr : Bool := false
deriving DecidableEq, Repr

/-- Cursor slot (`CursorData`, dbms_sql.c:74-96). Memory contexts and caches
are tracked as booleans (allocated or not); `fetched` is the engine-side
portal position (how many rows `SPI_cursor_fetch` has already delivered),
which in the C code lives inside the portal (spec section 6 collaborator);
`coltupdesc` holds `natts` of the template tuple descriptor when present. -/
structure CursorData where
  cid : Int := 0
  original_query : Option (List Char) := Option.none
  parsed_query : Option (List Char) := Option.none
  nvariables : Nat := 0
  max_colpos : Int := 0
  variables' : List VariableData := []
  columns : List ColumnData := []
  portal : Bool := false
  cursor_cxt : Bool := false
  cursor_xact_cxt : Bool := false
  tuples_cxt : Bool := false
  coltupdesc : Option Int := Option.none
  tupdesc : Bool := false
  casts : Bool := false
  processed : Nat := 0
  nread : Nat := 0
  fetched : Nat := 0
  executed : Bool := false
  assigned : Bool := false
deriving DecidableEq, Repr

/-- `memset(c, 0, sizeof(CursorData))`: the all-zero slot. -/
def zeroCursor : CursorData := {}

/-- Errors raised via `elog(ERROR, ...)` in dbms_sql.c. -/
inductive DbErr where
  | cursorIdNull
  | cursorIdOutOfRange
  | notOpened
  | queryNull
  | recordTypeCol
  | positionNull
  | sizeNull
  | varNotBound (name : List Char)
  | colNotFound (position : Int)
  | schemaMismatch
  | notExecuted
  | noActivePortal
  | notFetched
  | noDefinedColumns
  | posOutOfRange (natts : Int)
deriving DecidableEq, Repr

/-- `MAX_CURSORS` (dbms_sql.c:21). -/
def MAX_CURSORS : Int := 100

/-- The argument validation of `get_cursor` (dbms_sql.c:177-195): a `NULL`
cursor id errors; then the range check `cid < 0 && cid >= MAX_CURSORS` is
evaluated exactly as written in the source; `.ok cid` means the function
proceeds to index the global pool as `&cursors[cid]`. -/
def get_cursor_check (cidArg : Option Int) : Except DbErr Int :=
  match cidArg with
  | Option.none => .error .cursorIdNull
  | Option.some cid =>
    if cid < 0 ∧ cid ≥ MAX_CURSORS then .error .cursorIdOutOfRange
    else .ok cid

/-- `open_cursor` (dbms_sql.c:142-151): stamp the slot id, create the cursor
memory context, mark assigned. -/
def open_cursor (c : CursorData) (cid : Int) : CursorData :=
  { c with cid := cid, cursor_cxt := true, assigned := true }

/-- `close_cursor` (dbms_sql.c:197-211): release the engine cursor and both
memory scopes, then `memset` the slot to zero. -/
def close_cursor (_c : CursorData) : CursorData := zeroCursor

/-- `pg_tolower` as used by `downcase_identifier` (scansup.c collaborator):
ASCII upper-case letters are lowered; locale-dependent high-bit downcasing is
modelled as the identity. -/
def pg_tolower (c : Char) : Char :=
  if 'A' ≤ c ∧ c ≤ 'Z' then Char.ofNat (c.toNat + 32) else c

/-- `downcase_identifier(str, len, false, true)` (scansup.c collaborator):
downcase and truncate to `NAMEDATALEN - 1 = 63` characters. -/
def downcase_identifier (l : List Char) : List Char :=
  (l.map pg_tolower).take 63

/-- Linear search of the cursor's variable list by `refname`
(dbms_sql.c:292-298). -/
def lookupVar (refname : List Char) : List VariableData → Option VariableData
  | [] => Option.none
  | v :: vs => if v.refname = refname then some v else lookupVar refname vs

/-- `get_var` with `append = true` (dbms_sql.c:285-318): return the existing
variable for `refname`, or append a fresh `palloc0` one with
`varno = nvariables + 1` and bump `nvariables`. Returns the found/created
variable together with the updated list and counter. -/
def get_var (vars : List VariableData) (nvariables : Nat) (refname : List Char)
    (position : Int) : VariableData × List VariableData × Nat :=
  match lookupVar refname vars with
  | Option.some v => (v, vars, nvariables)
  | Option.none =>
    let nvar : VariableData :=
      { refname := refname, position := position, value := 0, typoid := 0,
        typbyval := false, typlen := 0, isnull := false, varno := nvariables + 1 }
    (nvar, vars ++ [nvar], nvariables + 1)

/-- Emission step of the rewriter loop body (dbms_sql.c:360-393): what is
appended to the output `StringInfo` for one token, plus the updated variable
list/counter (only the bind-variable case touches them; `off` is the
`ptr - query` offset passed to `get_var`). -/
def emitTok (t : Token) (vars : List VariableData) (nv : Nat) (off : Int) :
    List Char × List VariableData × Nat :=
  match t.typ with
  | .dolarStr => (t.sep ++ t.tok ++ t.sep, vars, nv)
  | .bindVar =>
    let name := downcase_identifier t.tok
    let r := get_var vars nv name off
    ('$' :: (Nat.repr r.1.varno).data, r.2.1, r.2.2)
  | .extStr => ('e' :: '\'' :: (t.tok ++ ['\'']), vars, nv)
  | .str => ('\'' :: (t.tok ++ ['\'']), vars, nv)
  | .qidentif => ('"' :: (t.tok ++ ['"']), vars, nv)
  | .none => ([], vars, nv)
  | _ => (t.tok, vars, nv)

/-- The `while (ptr)` rewriter loop of `dbms_sql_parse` (dbms_sql.c:353-396),
with explicit fuel so that the definition is kernel-computable; any
`fuel > s.length` behaves like the unbounded loop because every token consumes
at least one character. Returns (rewritten text, variable list, nvariables). -/
def rewriteFuel : Nat → List Char → Int → List VariableData → Nat →
    List Char × List VariableData × Nat
  | 0, _, _, vars, nv => ([], vars, nv)
  | fuel + 1, s, off, vars, nv =>
    match next_token s with
    | Option.none => ([], vars, nv)
    | Option.some (t, rest) =>
      let e := emitTok t vars nv off
      let r := rewriteFuel fuel rest (off + t.raw.length) e.2.1 e.2.2
      (e.1 ++ r.1, r.2.1, r.2.2)

/-- The rewritten statement text produced by parsing `s` into a freshly reset
cursor (empty variable table). -/
def rewriteText (s : List Char) : List Char :=
  (rewriteFuel (s.length + 1) s 0 [] 0).1

/-- The variable list produced by parsing `s` into a freshly reset cursor. -/
def parseVars (s : List Char) : List VariableData :=
  (rewriteFuel (s.length + 1) s 0 [] 0).2.1

/-- The full token stream of a text, with the same fuel convention as
`rewriteFuel`. -/
def tokensFuel : Nat → List Char → List Token
  | 0, _ => []
  | fuel + 1, s =>
    match next_token s with
    | Option.none => []
    | Option.some (t, rest) => t :: tokensFuel fuel rest

/-- The token stream of `s`. -/
def tokensList (s : List Char) : List Token :=
  tokensFuel (s.length + 1) s

/-- `dbms_sql_parse` (dbms_sql.c:323-409) applied to the slot `c` returned by
`get_cursor(fcinfo, true)`: a `NULL` statement errors; an already-parsed
cursor is closed and reopened with the same id (discarding all state); then
the rewriter runs and the original/rewritten texts are stored. -/
def dbms_sql_parse (c : CursorData) (stmtArg : Option (List Char)) :
    Except (DbErr × CursorData) CursorData :=
  if c.assigned = false then .error (.notOpened, c)
  else
    match stmtArg with
    | Option.none => .error (.queryNull, c)
    | Option.some query =>
      let c1 := if c.parsed_query.isSome then open_cursor (close_cursor c) c.cid else c
      let r := rewriteFuel (query.length + 1) query 0 c1.variables' c1.nvariables
      .ok { c1 with original_query := some query, parsed_query := some r.1,
                    variables' := r.2.1, nvariables := r.2.2 }

/-- Oid constants from `pg_type_d.h` used by the module. -/
def RECORDOID : Nat := 2249

/-- `UNKNOWNOID` from `pg_type_d.h`. -/
def UNKNOWNOID : Nat := 705

/-- `TEXTOID` from `pg_type_d.h`. -/
def TEXTOID : Nat := 25

/-- External type-catalog collaborator (spec section 6): base-type resolution,
string-category detection and len/byval classification, each a lookup
function keyed by type oid. -/
structure Catalog where
  getBaseType : Nat → Nat
  isStringCategory : Nat → Bool
  typlenbyval : Nat → Int × Bool

/-- Linear search of the cursor's column list by `position`
(dbms_sql.c:484-490). -/
def lookupCol (position : Int) : List ColumnData → Option ColumnData
  | [] => Option.none
  | col :: cols => if col.position = position then some col else lookupCol position cols

/-- Replace the first column with the given `position` by `f` applied to it
(the effect of writing through the `ColumnData *` returned by `get_col`). -/
def updateColAt (position : Int) (f : ColumnData → ColumnData) :
    List ColumnData → List ColumnData
  | [] => []
  | col :: cols =>
    if col.position = position then f col :: cols
    else col :: updateColAt position f cols

/-- `get_col` with `append = true` (dbms_sql.c:477-509): return the existing
column at `position`, or append a fresh `palloc0` one, raising `max_colpos`
when the new position exceeds it. Returns the found/created column and the
updated cursor. -/
def get_col_append (c : CursorData) (position : Int) : ColumnData × CursorData :=
  match lookupCol position c.columns with
  | Option.some col => (col, c)
  | Option.none =>
    let ncol : ColumnData := { position := position }
    (ncol, { c with
              max_colpos := if c.max_colpos < position then position else c.max_colpos,
              columns := c.columns ++ [ncol] })

/-- `dbms_sql_define_column` (dbms_sql.c:514-558) applied to the slot `c`:
note that the column entry is created by `get_col` and its `typoid` recorded
*before* the `NULL`-size check, exactly as in the source; the non-fatal
"column is defined already" warning has no state effect and is not modelled.
`valtype0` is `get_fn_expr_argtype(fcinfo->flinfo, 2)`. -/
def dbms_sql_define_column (cat : Catalog) (c : CursorData) (posArg : Option Int)
    (valtype0 : Nat) (sizeArg : Option Int) : Except (DbErr × CursorData) CursorData :=
  if c.assigned = false then .error (.notOpened, c)
  else
    match posArg with
    | Option.none => .error (.positionNull, c)
    | Option.some position =>
      let g := get_col_append c position
      let c1 := g.2
      if valtype0 = RECORDOID then .error (.recordTypeCol, c1)
      else
        let vt1 := cat.getBaseType valtype0
        let valtype := if vt1 = UNKNOWNOID then TEXTOID else vt1
        let c2 := { c1 with columns := (updateColAt position
                      (fun col => { col with typoid := valtype }) c1.columns) }
        match sizeArg with
        | Option.none => .error (.sizeNull, c2)
        | Option.some colsize =>
          let typisstr := cat.isStringCategory valtype
          let typmod : Int := if typisstr ∧ colsize ≠ -1 then colsize + 4 else -1
          let lb := cat.typlenbyval valtype
          .ok { c2 with columns := (updateColAt position
                  (fun col => { col with typisstr := typisstr, typmod := typmod,
                                         typlen := lb.1, typbyval := lb.2 }) c2.columns) }

/-- The query-argument arrays of `dbms_sql_execute` (dbms_sql.c:634-636):
`palloc`ed (hence uninitialized, modelled as `Option.none` entries) arrays of
length `nvariables`. -/
structure QueryArgs where
  values : List (Option Nat)
  types : List (Option Nat)
  nulls : List (Option Char)
deriving DecidableEq, Repr

/-- The `foreach(lc, c->variables)` argument-building loop of
`dbms_sql_execute` (dbms_sql.c:638-656), threading the index `i` exactly as
the source does: `i` is initialized to 0 before the loop and, as in the
source, never incremented between iterations. -/
def build_args_loop (i : Nat) : List VariableData → QueryArgs → Except DbErr QueryArgs
  | [], a => .ok a
  | v :: vs, a =>
    let a1 := if v.isnull = false then
        { a with values := a.values.set i (some v.value),
                 nulls := a.nulls.set i (some ' ') }
      else { a with nulls := a.nulls.set i (some 'n') }
    if v.typoid = 0 then .error (.varNotBound v.refname)
    else build_args_loop i vs { a1 with types := a1.types.set i (some v.typoid) }

/-- Parameter-array assembly of `dbms_sql_execute` (dbms_sql.c:630-656):
allocate the three arrays sized `nvariables` and run the loop with `i = 0`. -/
def build_query_args (vars : List VariableData) (nvariables : Nat) :
    Except DbErr QueryArgs :=
  build_args_loop 0 vars
    { values := List.replicate nvariables Option.none,
      types := List.replicate nvariables Option.none,
      nulls := List.replicate nvariables Option.none }

/-- The `for (i = 1; i <= c->max_colpos; i++)` template-descriptor loop of
`dbms_sql_execute` (dbms_sql.c:666-673): `get_col(c, i, false)` errors on the
first position in `1..max_colpos` with no column definition. `n` is the
remaining loop count, `i` the current position. -/
def firstUndefinedAux (cols : List ColumnData) : Nat → Int → Option Int
  | 0, _ => Option.none
  | n + 1, i =>
    match lookupCol i cols with
    | Option.none => some i
    | Option.some _ => firstUndefinedAux cols n (i + 1)

/-- `dbms_sql_execute` (dbms_sql.c:579-723) applied to the slot `c`.
`engineLiveCols` models the engine collaborator: the number of live
(non-dropped) columns of the opened portal's tuple descriptor, or
`Option.none` when the portal has no descriptor (in which case the source
skips the column-count validation). The `SPI` calls themselves are assumed to
succeed (their failures are collaborator failures, spec section 6). -/
def dbms_sql_execute (engineLiveCols : Option Nat) (c : CursorData) :
    Except (DbErr × CursorData) (Int × CursorData) :=
  if c.assigned = false then .error (.notOpened, c)
  else
    let c1 := if c.cursor_xact_cxt = false then { c with cursor_xact_cxt := true }
      else { c with casts := false, tupdesc := false, tuples_cxt := false }
    if c1.columns = [] then .ok (0, c1)
    else
      match build_query_args c1.variables' c1.nvariables with
      | .error e => .error (e, c1)
      | .ok _args =>
        match firstUndefinedAux c1.columns c1.max_colpos.toNat 1 with
        | Option.some i => .error (.colNotFound i, c1)
        | Option.none =>
          let c2 := { c1 with coltupdesc := some c1.max_colpos, casts := true,
                              portal := true }
          match engineLiveCols with
          | Option.some live =>
            if (live : Int) ≠ c2.max_colpos then .error (.schemaMismatch, c2)
            else .ok (0, { c2 with executed := true })
          | Option.none => .ok (0, { c2 with executed := true })

/-- `dbms_sql_fetch_rows` (dbms_sql.c:728-782) applied to the slot `c`. `k` is
the total number of rows of the row source behind the portal (spec section 6
collaborator); `SPI_cursor_fetch(c->portal, true, 10)` delivers the next
`min 10 (k - c.fetched)` rows (`SPI_processed`). -/
def dbms_sql_fetch_rows (k : Nat) (c : CursorData) : Except DbErr (Nat × CursorData) :=
  if c.assigned = false then .error .notOpened
  else if c.executed = false then .error .notExecuted
  else if c.portal = false then .error .noActivePortal
  else
    let c1 := if c.nread = c.processed then
        let b := min 10 (k - c.fetched)
        { c with tuples_cxt := true, tupdesc := true,
                 fetched := c.fetched + b, processed := b, nread := 0 }
      else c
    let c2 := if c1.nread ≤ c1.processed then { c1 with nread := c1.nread + 1 } else c1
    .ok (if c2.nread ≤ c2.processed then 1 else 0, c2)

/-- State of the cursor after `n` successive `fetch_rows` calls (an erroring
call performs no state change before raising, so it leaves the state as is). -/
def fetch_state (k : Nat) (c : CursorData) : Nat → CursorData
  | 0 => c
  | n + 1 =>
    match dbms_sql_fetch_rows k (fetch_state k c n) with
    | .ok r => r.2
    | .error _ => fetch_state k c n

/-- Result of the `n`-th `fetch_rows` call (`n ≥ 1`); `Option.none` when that
call errors. -/
def fetch_result (k : Nat) (c : CursorData) (n : Nat) : Option Nat :=
  match dbms_sql_fetch_rows k (fetch_state k c (n - 1)) with
  | .ok r => some r.1
  | .error _ => Option.none

/-- The validation sequence of `dbms_sql_column_value` (dbms_sql.c:845-882),
up to and including the position range check, which is written in the source
as `if (pos < 1 && pos > c->coltupdesc->natts)` — evaluated here exactly as
written. `.ok pos` means the function proceeds (to the result-type handling
and the cast cache) with that position. -/
def dbms_sql_column_value_check (c : CursorData) (posArg : Option Int) :
    Except DbErr Int :=
  if c.assigned = false then .error .notOpened
  else if c.executed = false then .error .notExecuted
  else if c.tupdesc = false then .error .notFetched
  else
    match posArg with
    | Option.none => .error .positionNull
    | Option.some pos =>
      match c.coltupdesc with
      | Option.none => .error .noDefinedColumns
      | Option.some natts =>
        if pos < 1 ∧ pos > natts then .error (.posOutOfRange natts)
        else .ok pos

/-- The per-token sufficient condition under which the rewriter reproduces a
token's consumed input exactly: not a bind placeholder; a space run of length
one; dollar strings, strings, extended strings and quoted identifiers
properly terminated; extended strings introduced by a lowercase `e`. -/
def Token.faithfulB (t : Token) : Bool :=
  match t.typ with
  | .bindVar => false
  | .spaces => decide (t.raw = [' '])
  | .dolarStr => t.term
  | .extStr => t.term && decide (t.raw.head? = some 'e')
  | .str => t.term
  | .qidentif => t.term
  | _ => true

/-- A dollar-quote separator `$tag$`. -/
def mkSep (tag : List Char) : List Char := '$' :: (tag ++ ['$'])

/-- A full dollar-quoted string `$tag$content$tag$`. -/
def mkDollarStr (tag content : List Char) : List Char :=
  mkSep tag ++ content ++ mkSep tag

/-- The first character of a dollar-quote tag must satisfy the entry guard of
the dollar branch (a digit is not allowed there, an empty tag is `$$`). -/
def tagHeadOK : List Char → Bool
  | [] => true
  | c :: _ => is_identif c || c == '_'

/-- A text "contains no bind placeholders" in the sense of the tokenizer: its
token stream has no `TOKEN_BIND_VAR` token. -/
def noBindPlaceholders (s : List Char) : Bool :=
  (tokensList s).all (fun t => !(t.typ == TokenType.bindVar))

/-- Counterexample input for the byte-exact round-trip: a run of two spaces. -/
def exSpaces : List Char := "a  b".toList

/-- Counterexample input: an extended string introduced by upper-case `E`. -/
def exUpperE : List Char := 'E' :: '\'' :: 'x' :: '\'' :: []

/-- Counterexample input: an unterminated string literal. -/
def exUnterminated : List Char := '\'' :: 'x' :: []

/-- Counterexample input: an unterminated dollar-quoted string. -/
def exUnterminatedDollar : List Char := "$t$x".toList

/-- The spec's custom-delimited example text `$tag$it's a :x$tag$`. -/
def dollarEx : List Char := "$tag$it".toList ++ '\'' :: "s a :x$tag$".toList

/-- A trivial concrete type catalog: every type is its own base type, only
`text` (oid 25) is string-category, everything is varlena by-reference. -/
def natCat : Catalog :=
  { getBaseType := fun t => t,
    isStringCategory := fun t => t == TEXTOID,
    typlenbyval := fun _ => (-1, false) }

/-- Well-formedness of the bind-variable table as maintained by `get_var`:
`nvariables` equals the list length, ordinal numbers are dense in list order
starting at 1, and placeholder names are unique. -/
def VarsWellFormed (vars : List VariableData) (nv : Nat) : Prop :=
  nv = vars.length ∧
  (∀ i v, vars.get? i = some v → v.varno = i + 1) ∧
  (∀ i j vi vj, vars.get? i = some vi → vars.get? j = some vj →
    vi.refname = vj.refname → i = j)

/-- A variable entry exactly as `palloc0` leaves it before any bind: no type,
no value, not explicitly null. -/
def FreshVar (v : VariableData) : Prop :=
  v.typoid = 0 ∧ v.isnull = false ∧ v.value = 0

/-- Invariant of the fetch loop over a `k`-row source after `n` calls: either
(still delivering) the buffer bookkeeping counts exactly `n` consumed rows, or
(exhausted) the loop has entered its absorbing state. -/
def FetchInv (k n : Nat) (c : CursorData) : Prop :=
  c.assigned = true ∧ c.executed = true ∧ c.portal = true ∧
  ((n ≤ k ∧ c.nread ≤ c.processed ∧ c.processed ≤ c.fetched ∧ c.fetched ≤ k ∧
    c.fetched - c.processed + c.nread = n) ∨
   (k < n ∧ c.fetched = k ∧ c.processed = 0 ∧ c.nread = 1))

/-- Cursor fixture: two bound variables ordinals 1 and 2 (types `text` oid 25
with value 11, `int4` oid 23 with value 22). -/
def c1varA : VariableData :=
  { refname := ['a'], position := 7, value := 11, typoid := 25, typbyval := true,
    typlen := 4, isnull := false, varno := 1 }

/-- Second bound variable of the C1 fixture. -/
def c1varB : VariableData :=
  { refname := ['b'], position := 11, value := 22, typoid := 23, typbyval := true,
    typlen := 4, isnull := false, varno := 2 }

/-- Cursor fixture: executed and fetched, one declared column. -/
def c2exec : CursorData :=
  { zeroCursor with
    assigned := true, executed := true, portal := true,
    tupdesc := true, cursor_cxt := true, cursor_xact_cxt := true, casts := true,
    coltupdesc := some 1, max_colpos := 1, tuples_cxt := true }

/-- Cursor fixture: parsed, no columns defined yet. -/
def c4pre : CursorData :=
  { zeroCursor with
    assigned := true, cursor_cxt := true,
    parsed_query := some "select a from t".toList,
    original_query := some "select a from t".toList }

/-- The state `dbms_sql_define_column` leaves behind when it rejects a `NULL`
size after having already created the column entry at position 1. -/
def c4post : CursorData :=
  { c4pre with max_colpos := 1, columns := [{ position := 1, typoid := 25 }] }

/-- Cursor fixture: freshly executed, nothing fetched yet. -/
def c6exec : CursorData :=
  { zeroCursor with
    assigned := true, executed := true, portal := true,
    cursor_cxt := true, cursor_xact_cxt := true }

/-- Cursor fixture: parsed cursor with an empty column-definition table. -/
def c7cur : CursorData :=
  { zeroCursor with
    assigned := true, cursor_cxt := true,
    parsed_query := some "select 1".toList,
    original_query := some "select 1".toList }

/-- Cursor fixture: an already-parsed cursor with a bound variable and a
defined column, about to be re-parsed. -/
def c8pre : CursorData :=
  { zeroCursor with
    cid := 5, assigned := true, cursor_cxt := true,
    parsed_query := some "select $1".toList,
    original_query := some "select :old".toList,
    nvariables := 1,
    variables' := [{ refname := "old".toList, position := 7, value := 42,
                     typoid := 25, typbyval := false, typlen := -1,
                     isnull := false, varno := 1 }],
    columns := [{ position := 1, typoid := 25, typmod := 36, typisstr := true,
                  typlen := -1 }],
    max_colpos := 1 }

/-! ### Scanner lemmas -/

theorem headIs_eq {ch : Char} {l : List Char} (h : headIs ch l = true) :
    l = ch :: l.tail := by
  cases l with
  | nil => simp [headIs] at h
  | cons d ds => simp only [headIs, beq_iff_eq] at h; simp [h]

theorem commentRest_append (l : List Char) :
    (commentRest l).1 ++ (commentRest l).2 = l := by
  induction l with
  | nil => simp [commentRest]
  | cons c cs ih =>
    simp only [commentRest]
    by_cases h : (c == '*' && headIs '/' cs) = true
    · simp only [h, if_pos]
      obtain ⟨h1, h2⟩ := Bool.and_eq_true_iff.mp h
      rw [beq_iff_eq] at h1
      rw [headIs_eq h2]
      simp [h1]
    · simp only [h]
      simpa using ih

theorem scanNumber_append (point : Bool) (l : List Char) :
    (scanNumber point l).1 ++ (scanNumber point l).2 = l := by
  induction l generalizing point with
  | nil => simp [scanNumber]
  | cons c cs ih =>
    simp only [scanNumber]
    by_cases h1 : c.isDigit = true
    · simpa [h1] using ih point
    · simp only [h1]
      by_cases h2 : (c == '.' && !point) = true
      · simpa [h2] using ih true
      · simp [h2]

theorem scanExt_append (l : List Char) :
    (scanExt l).1 ++ (if (scanExt l).2.2 then ['\''] else []) ++ (scanExt l).2.1 = l := by
  induction l using scanExt.induct with
  | case1 => simp [scanExt]
  | case2 cs => simp [scanExt]
  | case3 c2 cs2 h ih =>
    simp only [scanExt, h, if_pos]
    simpa using ih
  | case4 c2 cs2 h ih =>
    simp only [scanExt, h, if_neg]
    simpa using ih
  | case5 c cs h1 h2 ih =>
    rw [scanExt.eq_4 c cs h1 h2]
    simpa using ih

theorem scanQuoted_append (q : Char) (l : List Char) :
    (scanQuoted q l).1 ++ (if (scanQuoted q l).2.2 then [q] else []) ++ (scanQuoted q l).2.1
      = l := by
  have H : ∀ (n : Nat) (l : List Char), l.length ≤ n →
      (scanQuoted q l).1 ++ (if (scanQuoted q l).2.2 then [q] else []) ++
        (scanQuoted q l).2.1 = l := by
    intro n
    induction n with
    | zero =>
      intro l hl
      have hnil : l = [] := by
        cases l with
        | nil => rfl
        | cons a as => simp at hl
      subst hnil
      simp [scanQuoted.eq_1]
    | succ n ih =>
      intro l hl
      rcases l with _ | ⟨d, _ | ⟨c2, cs2⟩⟩
      · simp [scanQuoted.eq_1]
      · rw [scanQuoted.eq_3]
        by_cases h : (d == q) = true
        · rw [beq_iff_eq] at h
          simp [h]
        · simp [h, scanQuoted.eq_1]
      · rw [scanQuoted.eq_2]
        by_cases h1 : (d == q) = true
        · by_cases h2 : (c2 == q) = true
          · simp only [h1, h2, if_pos]
            have := ih cs2 (by simp at hl ⊢; omega)
            simpa using this
          · rw [beq_iff_eq] at h1
            simp [h1, h2]
        · simp only [h1, Bool.false_eq_true, if_neg, not_false_iff]
          have := ih (c2 :: cs2) (by simp at hl ⊢; omega)
          simpa using this
  exact H l.length l le_rfl

theorem scanDollarTag_drop {l : List Char} {t : Nat} (h : scanDollarTag l = some t) :
    l.drop t = '$' :: l.drop (t + 1) := by
  induction l generalizing t with
  | nil => simp [scanDollarTag] at h
  | cons c cs ih =>
    simp only [scanDollarTag] at h
    by_cases h1 : (c == '$') = true
    · rw [if_pos h1] at h
      injection h with h'
      subst h'
      rw [beq_iff_eq] at h1
      simp [h1]
    · rw [if_neg h1] at h
      by_cases h2 : identChar c = true
      · rw [if_pos h2] at h
        rcases ht : scanDollarTag cs with _ | t'
        · rw [ht] at h; simp at h
        · rw [ht] at h
          simp only [Option.map_some'] at h
          injection h with h'
          subst h'
          simpa using ih ht
      · rw [if_neg h2] at h; simp at h

theorem scanDollarTag_split {l : List Char} {t : Nat} (h : scanDollarTag l = some t) :
    l = l.take t ++ '$' :: l.drop (t + 1) := by
  conv_lhs => rw [← List.take_append_drop t l]
  rw [scanDollarTag_drop h]

theorem findSubstr_prefix {pat l : List Char} {idx : Nat}
    (h : findSubstr pat l = some idx) : pat <+: l.drop idx := by
  induction l generalizing idx with
  | nil =>
    simp only [findSubstr] at h
    by_cases hp : pat.isEmpty = true
    · rw [if_pos hp] at h
      injection h with h'
      subst h'
      rw [List.isEmpty_iff] at hp
      simp [hp]
    · rw [if_neg hp] at h; simp at h
  | cons c cs ih =>
    simp only [findSubstr] at h
    by_cases hp : pat.isPrefixOf (c :: cs) = true
    · rw [if_pos hp] at h
      injection h with h'
      subst h'
      simpa using List.isPrefixOf_iff_prefix.mp hp
    · rw [if_neg hp] at h
      rcases hf : findSubstr pat cs with _ | i'
      · rw [hf] at h; simp at h
      · rw [hf] at h
        simp only [Option.map_some'] at h
        injection h with h'
        subst h'
        simpa using ih hf

theorem findSubstr_first {pat : List Char} : ∀ {n : Nat} {l : List Char},
    (∀ i, i < n → ¬ pat <+: l.drop i) → pat <+: l.drop n → findSubstr pat l = some n := by
  intro n
  induction n with
  | zero =>
    intro l _ hyes
    cases l with
    | nil =>
      simp only [List.drop_nil] at hyes
      rw [List.prefix_nil] at hyes
      simp [findSubstr, hyes]
    | cons c cs =>
      simp only [List.drop_zero] at hyes
      simp [findSubstr, List.isPrefixOf_iff_prefix.mpr hyes]
  | succ n ih =>
    intro l hno hyes
    cases l with
    | nil =>
      exact absurd (by simpa using hyes) (by simpa using hno 0 (Nat.succ_pos n))
    | cons c cs =>
      have h0 : ¬ pat.isPrefixOf (c :: cs) = true := by
        intro hp
        exact hno 0 (Nat.succ_pos n) (by simpa using List.isPrefixOf_iff_prefix.mp hp)
      simp only [findSubstr, if_neg h0]
      have hrec : findSubstr pat cs = some n := by
        apply ih
        · intro i hi
          have := hno (i + 1) (by omega)
          simpa using this
        · simpa using hyes
      rw [hrec]
      rfl

/-! ### The token contract: every token consumes a nonempty slice of the
input, and a `faithfulB` token is emitted by the rewriter exactly as it was
consumed. -/

theorem next_token_spec {s : List Char} {t : Token} {r : List Char}
    (h : next_token s = some (t, r)) :
    t.raw ++ r = s ∧ t.raw ≠ [] ∧
      (t.faithfulB = true → ∀ vars nv off, emitTok t vars nv off = (t.raw, vars, nv)) := by
  cases s with
  | nil => simp [next_token] at h
  | cons c cs =>
    simp only [next_token] at h
    by_cases h1 : (c == ' ') = true
    · rw [if_pos h1] at h
      injection h with h'
      injection h' with ht hr
      subst ht; subst hr
      refine ⟨by simp [List.takeWhile_append_dropWhile], by simp, ?_⟩
      intro hf vars nv off
      simp only [Token.faithfulB, Token.raw, decide_eq_true_eq] at hf
      simp [emitTok, Token.raw, hf]
    · rw [if_neg h1] at h
      by_cases h2 : (c == '$' && dollarGuard cs) = true
      · rw [if_pos h2] at h
        have hc : c = '$' := by
          have := (Bool.and_eq_true_iff.mp h2).1
          rwa [beq_iff_eq] at this
        subst hc
        rcases hsd : scanDollarTag cs with _ | tg
        · simp only [hsd] at h
          injection h with h'
          injection h' with ht hr
          subst ht; subst hr
          exact ⟨by simp, by simp, fun _ vars nv off => by simp [emitTok]⟩
        · simp only [hsd] at h
          have hsplit : ('$' :: cs : List Char) =
              ('$' :: (cs.take tg ++ ['$'])) ++ cs.drop (tg + 1) := by
            conv_lhs => rw [scanDollarTag_split hsd]
            simp
          rcases hfs : findSubstr ('$' :: (cs.take tg ++ ['$'])) (cs.drop (tg + 1))
            with _ | idx
          · simp only [hfs] at h
            injection h with h'
            injection h' with ht hr
            subst ht; subst hr
            refine ⟨by simpa using hsplit.symm, by simp, ?_⟩
            intro hf
            simp [Token.faithfulB] at hf
          · simp only [hfs] at h
            injection h with h'
            injection h' with ht hr
            subst ht; subst hr
            obtain ⟨u, hu⟩ := findSubstr_prefix hfs
            have haux : cs.drop (tg + 1) =
                (cs.drop (tg + 1)).take idx ++ (('$' :: (cs.take tg ++ ['$'])) ++ u) := by
              conv_lhs => rw [← List.take_append_drop idx (cs.drop (tg + 1))]
              rw [← hu]
            have hr' : (cs.drop (tg + 1)).drop
                (idx + ('$' :: (cs.take tg ++ ['$'])).length) = u := by
              rw [← List.drop_drop, ← hu]
              exact List.drop_left _ _
            refine ⟨?_, by simp, ?_⟩
            · rw [hr', hsplit]
              conv_rhs => rw [haux]
              simp [Token.raw]
            · intro _ vars nv off
              simp [emitTok]
      · rw [if_neg h2] at h
        by_cases h3 : (c == '/' && headIs '*' cs) = true
        · rw [if_pos h3] at h
          obtain ⟨h3a, h3b⟩ := Bool.and_eq_true_iff.mp h3
          rw [beq_iff_eq] at h3a
          subst h3a
          cases cs with
          | nil => simp [headIs] at h3b
          | cons d cs2 =>
            simp only [headIs, beq_iff_eq] at h3b
            subst h3b
            simp only [List.tail_cons] at h
            injection h with h'
            injection h' with ht hr
            subst ht; subst hr
            refine ⟨?_, by simp, fun _ vars nv off => by simp [emitTok]⟩
            have := commentRest_append cs2
            simp only [Token.raw, List.cons_append]
            rw [this]
        · rw [if_neg h3] at h
          by_cases h4 : (c.isDigit || (c == '.' && digitStart cs)) = true
          · rw [if_pos h4] at h
            injection h with h'
            injection h' with ht hr
            subst ht; subst hr
            refine ⟨?_, by simp, fun _ vars nv off => by simp [emitTok]⟩
            have := scanNumber_append (c == '.') cs
            simp only [Token.raw, List.cons_append]
            rw [this]
          · rw [if_neg h4] at h
            by_cases h5 : (c == ':' && headIs ':' cs) = true
            · rw [if_pos h5] at h
              obtain ⟨h5a, h5b⟩ := Bool.and_eq_true_iff.mp h5
              rw [beq_iff_eq] at h5a
              subst h5a
              cases cs with
              | nil => simp [headIs] at h5b
              | cons d cs2 =>
                simp only [headIs, beq_iff_eq] at h5b
                subst h5b
                simp only [List.tail_cons] at h
                injection h with h'
                injection h' with ht hr
                subst ht; subst hr
                exact ⟨by simp [Token.raw], by simp,
                       fun _ vars nv off => by simp [emitTok]⟩
            · rw [if_neg h5] at h
              by_cases h6 : (c == ':' && bindStart cs) = true
              · rw [if_pos h6] at h
                obtain ⟨h6a, h6b⟩ := Bool.and_eq_true_iff.mp h6
                rw [beq_iff_eq] at h6a
                subst h6a
                injection h with h'
                injection h' with ht hr
                subst ht; subst hr
                cases cs with
                | nil => simp [bindStart] at h6b
                | cons d cs2 =>
                  refine ⟨?_, by simp, ?_⟩
                  · simp [Token.raw, List.takeWhile_append_dropWhile]
                  · intro hf
                    simp [Token.faithfulB] at hf
              · rw [if_neg h6] at h
                by_cases h7 : ((c == 'e' || c == 'E') && headIs '\'' cs) = true
                · rw [if_pos h7] at h
                  obtain ⟨h7a, h7b⟩ := Bool.and_eq_true_iff.mp h7
                  cases cs with
                  | nil => simp [headIs] at h7b
                  | cons d cs2 =>
                    simp only [headIs, beq_iff_eq] at h7b
                    subst h7b
                    simp only [List.tail_cons] at h
                    injection h with h'
                    injection h' with ht hr
                    subst ht; subst hr
                    refine ⟨?_, by simp, ?_⟩
                    · have := scanExt_append cs2
                      simp only [Token.raw, List.cons_append, List.append_assoc]
                      rw [← List.append_assoc, this]
                    · intro hf vars nv off
                      simp only [Token.faithfulB, Token.term, Token.raw,
                        Bool.and_eq_true, decide_eq_true_eq, List.head?_cons] at hf
                      obtain ⟨hterm, hc⟩ := hf
                      injection hc with hc
                      subst hc
                      simp [emitTok, Token.raw, hterm]
                · rw [if_neg h7] at h
                  by_cases h8 : (c == '\'') = true
                  · rw [if_pos h8] at h
                    rw [beq_iff_eq] at h8
                    subst h8
                    injection h with h'
                    injection h' with ht hr
                    subst ht; subst hr
                    refine ⟨?_, by simp, ?_⟩
                    · have := scanQuoted_append '\'' cs
                      simp only [Token.raw, List.cons_append, List.append_assoc]
                      rw [← List.append_assoc, this]
                    · intro hf vars nv off
                      simp only [Token.faithfulB, Token.term] at hf
                      simp [emitTok, Token.raw, hf]
                  · rw [if_neg h8] at h
                    by_cases h9 : (c == '"') = true
                    · rw [if_pos h9] at h
                      rw [beq_iff_eq] at h9
                      subst h9
                      injection h with h'
                      injection h' with ht hr
                      subst ht; subst hr
                      refine ⟨?_, by simp, ?_⟩
                      · have := scanQuoted_append '"' cs
                        simp only [Token.raw, List.cons_append, List.append_assoc]
                        rw [← List.append_assoc, this]
                      · intro hf vars nv off
                        simp only [Token.faithfulB, Token.term] at hf
                        simp [emitTok, Token.raw, hf]
                    · rw [if_neg h9] at h
                      by_cases h10 : (is_identif c || c == '_') = true
                      · rw [if_pos h10] at h
                        injection h with h'
                        injection h' with ht hr
                        subst ht; subst hr
                        exact ⟨by simp [Token.raw, List.takeWhile_append_dropWhile],
                               by simp,
                               fun _ vars nv off => by simp [emitTok]⟩
                      · rw [if_neg h10] at h
                        injection h with h'
                        injection h' with ht hr
                        subst ht; subst hr
                        exact ⟨by simp, by simp,
                               fun _ vars nv off => by simp [emitTok]⟩

theorem next_token_eq_none {s : List Char} (h : next_token s = Option.none) :
    s = [] := by
  cases s with
  | nil => rfl
  | cons c cs =>
    exfalso
    simp only [next_token] at h
    by_cases h1 : (c == ' ') = true
    · rw [if_pos h1] at h
      exact Option.noConfusion h
    · rw [if_neg h1] at h
      by_cases h2 : (c == '$' && dollarGuard cs) = true
      · rw [if_pos h2] at h
        rcases hsd : scanDollarTag cs with _ | tg
        · simp only [hsd] at h
          exact Option.noConfusion h
        · simp only [hsd] at h
          rcases hfs : findSubstr ('$' :: (cs.take tg ++ ['$'])) (cs.drop (tg + 1))
            with _ | idx
          · simp only [hfs] at h
            exact Option.noConfusion h
          · simp only [hfs] at h
            exact Option.noConfusion h
      · rw [if_neg h2] at h
        by_cases h3 : (c == '/' && headIs '*' cs) = true
        · rw [if_pos h3] at h
          exact Option.noConfusion h
        · rw [if_neg h3] at h
          by_cases h4 : (c.isDigit || (c == '.' && digitStart cs)) = true
          · rw [if_pos h4] at h
            exact Option.noConfusion h
          · rw [if_neg h4] at h
            by_cases h5 : (c == ':' && headIs ':' cs) = true
            · rw [if_pos h5] at h
              exact Option.noConfusion h
            · rw [if_neg h5] at h
              by_cases h6 : (c == ':' && bindStart cs) = true
              · rw [if_pos h6] at h
                exact Option.noConfusion h
              · rw [if_neg h6] at h
                by_cases h7 : ((c == 'e' || c == 'E') && headIs '\'' cs) = true
                · rw [if_pos h7] at h
                  exact Option.noConfusion h
                · rw [if_neg h7] at h
                  by_cases h8 : (c == '\'') = true
                  · rw [if_pos h8] at h
                    exact Option.noConfusion h
                  · rw [if_neg h8] at h
                    by_cases h9 : (c == '"') = true
                    · rw [if_pos h9] at h
                      exact Option.noConfusion h
                    · rw [if_neg h9] at h
                      by_cases h10 : (is_identif c || c == '_') = true
                      · rw [if_pos h10] at h
                        exact Option.noConfusion h
                      · rw [if_neg h10] at h
                        exact Option.noConfusion h

/-- Core round-trip lemma: with enough fuel, if every token of `s` satisfies
`Token.faithfulB` then the rewriter loop reproduces `s` exactly and leaves the
variable table untouched. -/
theorem rewriteFuel_faithful : ∀ (fuel : Nat) (s : List Char) (off : Int)
    (vars : List VariableData) (nv : Nat), s.length < fuel →
    (tokensFuel fuel s).all Token.faithfulB = true →
    rewriteFuel fuel s off vars nv = (s, vars, nv) := by
  intro fuel
  induction fuel with
  | zero => intro s off vars nv h _; omega
  | succ n ih =>
    intro s off vars nv hlen hall
    rcases hnt : next_token s with _ | ⟨t, rest⟩
    · have hs : s = [] := next_token_eq_none hnt
      subst hs
      simp [rewriteFuel, hnt]
    · obtain ⟨hraw, hne, hemit⟩ := next_token_spec hnt
      have htok : tokensFuel (n + 1) s = t :: tokensFuel n rest := by
        simp [tokensFuel, hnt]
      rw [htok] at hall
      simp only [List.all_cons, Bool.and_eq_true] at hall
      obtain ⟨hft, hrest⟩ := hall
      have hlt : rest.length < n := by
        have hsum : t.raw.length + rest.length = s.length := by
          rw [← List.length_append, hraw]
        have hpos : 0 < t.raw.length := List.length_pos.mpr hne
        omega
      simp only [rewriteFuel, hnt]
      rw [hemit hft vars nv off]
      rw [ih rest (off + (t.raw.length : Int)) vars nv hlt hrest]
      simp [hraw]

/-- C3 (amended): for every input text whose token stream contains no bind
placeholder and satisfies the further conditions the tokenizer needs for a
lossless copy — no run of two or more consecutive spaces, every string
literal, extended string, quoted identifier and dollar-quoted string properly
terminated, and extended strings introduced by a lowercase `e` — the
rewritten statement produced by parse is byte-for-byte equal to the input
text. (Without those extra conditions the claim is false: see
`C3_counterexample`.) -/
theorem C3_rewrite_roundtrip (s : List Char)
    (h : (tokensList s).all Token.faithfulB = true) : rewriteText s = s := by
  have hmain := rewriteFuel_faithful (s.length + 1) s 0 [] 0 (by omega)
    (by simpa [tokensList] using h)
  simpa [rewriteText] using congrArg Prod.fst hmain

/-- Concrete instance of `C3_rewrite_roundtrip`: a faithful statement text is
reproduced byte-for-byte. -/
theorem C3_rewrite_roundtrip_witness :
    (tokensList "select a, /* hi */ 42.5 from t::x".toList).all Token.faithfulB = true ∧
      rewriteText "select a, /* hi */ 42.5 from t::x".toList
        = "select a, /* hi */ 42.5 from t::x".toList :=
  ⟨by decide, C3_rewrite_roundtrip _ (by decide)⟩

/-- C3 counterexamples: four placeholder-free texts on which the rewritten
statement differs from the input — a two-space run is collapsed, `E'x'` is
normalized to `e'x'`, and unterminated string/dollar constructs get a closing
delimiter appended. -/
theorem C3_counterexample :
    (noBindPlaceholders exSpaces = true ∧ rewriteText exSpaces ≠ exSpaces) ∧
    (noBindPlaceholders exUpperE = true ∧ rewriteText exUpperE ≠ exUpperE) ∧
    (noBindPlaceholders exUnterminated = true ∧
      rewriteText exUnterminated ≠ exUnterminated) ∧
    (noBindPlaceholders exUnterminatedDollar = true ∧
      rewriteText exUnterminatedDollar ≠ exUnterminatedDollar) := by
  decide

/-! ### The bind-variable table invariant -/

theorem lookupVar_none {name : List Char} : ∀ {vars : List VariableData},
    lookupVar name vars = Option.none → ∀ v ∈ vars, v.refname ≠ name := by
  intro vars
  induction vars with
  | nil => intro _ v hv; simp at hv
  | cons w ws ih =>
    intro h v hv
    simp only [lookupVar] at h
    by_cases hw : w.refname = name
    · rw [if_pos hw] at h; exact Option.noConfusion h
    · rw [if_neg hw] at h
      rcases List.mem_cons.mp hv with rfl | hv'
      · exact hw
      · exact ih h v hv'

theorem get_var_wf {vars : List VariableData} {nv : Nat} {name : List Char}
    {off : Int} (h : VarsWellFormed vars nv) :
    VarsWellFormed (get_var vars nv name off).2.1 (get_var vars nv name off).2.2 := by
  unfold get_var
  rcases hl : lookupVar name vars with _ | v
  · obtain ⟨hlen, hord, huniq⟩ := h
    have hnot := lookupVar_none hl
    refine ⟨by simp [hlen], ?_, ?_⟩
    · intro i v hv
      rcases Nat.lt_trichotomy i vars.length with hi | hi | hi
      · rw [List.get?_append hi] at hv
        exact hord i v hv
      · subst hi
        rw [List.get?_concat_length] at hv
        injection hv with hv
        subst hv
        simp [hlen]
      · rw [List.get?_eq_none.mpr (by simp <;> omega)] at hv
        exact Option.noConfusion hv
    · intro i j vi vj hvi hvj hname
      have hcase : ∀ m (w : VariableData),
          (vars ++ [({ refname := name, position := off, value := 0, typoid := 0,
                       typbyval := false, typlen := 0, isnull := false,
                       varno := nv + 1 } : VariableData)]).get? m = some w →
          (m < vars.length ∧ vars.get? m = some w) ∨
            (m = vars.length ∧ w.refname = name) := by
        intro m w hw
        rcases Nat.lt_trichotomy m vars.length with hm | hm | hm
        · rw [List.get?_append hm] at hw
          exact Or.inl ⟨hm, hw⟩
        · subst hm
          rw [List.get?_concat_length] at hw
          injection hw with hw
          subst hw
          exact Or.inr ⟨rfl, rfl⟩
        · rw [List.get?_eq_none.mpr (by simp <;> omega)] at hw
          exact Option.noConfusion hw
      rcases hcase i vi hvi with ⟨hi, hvi'⟩ | ⟨hi, hni⟩ <;>
        rcases hcase j vj hvj with ⟨hj, hvj'⟩ | ⟨hj, hnj⟩
      · exact huniq i j vi vj hvi' hvj' hname
      · exact absurd (hname.trans hnj) (hnot vi (List.get?_mem hvi'))
      · exact absurd (hname.symm.trans hni) (hnot vj (List.get?_mem hvj'))
      · rw [hi, hj]
  · exact h

theorem get_var_fresh {vars : List VariableData} {nv : Nat} {name : List Char}
    {off : Int} (h : ∀ v ∈ vars, FreshVar v) :
    ∀ v ∈ (get_var vars nv name off).2.1, FreshVar v := by
  unfold get_var
  rcases hl : lookupVar name vars with _ | w
  · intro v hv
    rcases List.mem_append.mp hv with hv' | hv'
    · exact h v hv'
    · simp only [List.mem_singleton] at hv'
      subst hv'
      exact ⟨rfl, rfl, rfl⟩
  · exact h

theorem emitTok_wf {t : Token} {vars : List VariableData} {nv : Nat} {off : Int}
    (h : VarsWellFormed vars nv) :
    VarsWellFormed (emitTok t vars nv off).2.1 (emitTok t vars nv off).2.2 := by
  rcases t with ⟨typ, tok, sep, raw, term⟩
  cases typ <;> first
    | exact h
    | exact get_var_wf h

theorem emitTok_fresh {t : Token} {vars : List VariableData} {nv : Nat} {off : Int}
    (h : ∀ v ∈ vars, FreshVar v) :
    ∀ v ∈ (emitTok t vars nv off).2.1, FreshVar v := by
  rcases t with ⟨typ, tok, sep, raw, term⟩
  cases typ <;> first
    | exact h
    | exact get_var_fresh h

theorem rewriteFuel_wf : ∀ (fuel : Nat) (s : List Char) (off : Int)
    (vars : List VariableData) (nv : Nat), VarsWellFormed vars nv →
    VarsWellFormed (rewriteFuel fuel s off vars nv).2.1
      (rewriteFuel fuel s off vars nv).2.2 := by
  intro fuel
  induction fuel with
  | zero => intro s off vars nv h; exact h
  | succ n ih =>
    intro s off vars nv h
    rcases hnt : next_token s with _ | ⟨t, rest⟩
    · simpa [rewriteFuel, hnt] using h
    · simp only [rewriteFuel, hnt]
      exact ih rest _ _ _ (emitTok_wf h)

theorem rewriteFuel_fresh : ∀ (fuel : Nat) (s : List Char) (off : Int)
    (vars : List VariableData) (nv : Nat), (∀ v ∈ vars, FreshVar v) →
    ∀ v ∈ (rewriteFuel fuel s off vars nv).2.1, FreshVar v := by
  intro fuel
  induction fuel with
  | zero => intro s off vars nv h; exact h
  | succ n ih =>
    intro s off vars nv h
    rcases hnt : next_token s with _ | ⟨t, rest⟩
    · simpa [rewriteFuel, hnt] using h
    · simp only [rewriteFuel, hnt]
      exact ih rest _ _ _ (emitTok_fresh h)

theorem parseVars_wf (s : List Char) :
    VarsWellFormed (parseVars s) (rewriteFuel (s.length + 1) s 0 [] 0).2.2 :=
  rewriteFuel_wf (s.length + 1) s 0 [] 0
    ⟨rfl, fun i v hv => by simp at hv, fun i j vi vj hvi => by simp at hvi⟩

/-- C5: in the variable table produced by parsing any text, placeholder names
are unique (so every occurrence of the same case-normalized name maps to the
same ordinal) and ordinals are assigned densely in first-occurrence order
starting at 1; moreover, on the spec's example, parsing `select :b, :a, :b`
assigns `b = 1`, `a = 2` and rewrites to `select $1, $2, $1`. -/
theorem C5_placeholder_ordinals :
    (∀ (s : List Char) (i j : Nat) (vi vj : VariableData),
        (parseVars s).get? i = some vi → (parseVars s).get? j = some vj →
        vi.refname = vj.refname → i = j) ∧
    (∀ (s : List Char) (i : Nat) (v : VariableData),
        (parseVars s).get? i = some v → v.varno = i + 1) ∧
    rewriteText "select :b, :a, :b".toList = "select $1, $2, $1".toList ∧
    (parseVars "select :b, :a, :b".toList).map (fun v => (v.refname, v.varno))
      = [(['b'], 1), (['a'], 2)] := by
  refine ⟨?_, ?_, by decide, by decide⟩
  · intro s i j vi vj hvi hvj hname
    exact (parseVars_wf s).2.2 i j vi vj hvi hvj hname
  · intro s i v hv
    exact (parseVars_wf s).2.1 i v hv

/-- Concrete application of `C5_placeholder_ordinals`: the first variable of
the example text carries ordinal 1. -/
theorem C5_placeholder_ordinals_witness :
    (parseVars "select :b, :a, :b".toList).get? 0 =
      some { refname := ['b'], position := 7, value := 0, typoid := 0,
             typbyval := false, typlen := 0, isnull := false, varno := 1 } ∧
    ({ refname := ['b'], position := 7, value := 0, typoid := 0,
       typbyval := false, typlen := 0, isnull := false,
       varno := 1 } : VariableData).varno = 0 + 1 :=
  ⟨by decide, C5_placeholder_ordinals.2.1 "select :b, :a, :b".toList 0 _ (by decide)⟩

/-- C8: re-parsing an already-parsed cursor keeps the slot identity (`cid`)
but resets its bind-variable and column-definition tables: afterwards the
column table is empty, the variable table is exactly the fresh one produced
from the new text, and every entry in it is unbound (`palloc0` state), so a
variable bound or a column defined before the re-parse is no longer
present. -/
theorem C8_reparse_resets (c : CursorData) (stmt q : List Char)
    (ha : c.assigned = true) (hp : c.parsed_query = some q) :
    dbms_sql_parse c (some stmt) =
      .ok { zeroCursor with
            cid := c.cid, cursor_cxt := true, assigned := true,
            original_query := some stmt,
            parsed_query := some (rewriteText stmt),
            variables' := parseVars stmt,
            nvariables := (parseVars stmt).length } ∧
    (∀ v ∈ parseVars stmt, FreshVar v) := by
  constructor
  · have hnv : (rewriteFuel (stmt.length + 1) stmt 0 [] 0).2.2
        = (parseVars stmt).length := (parseVars_wf stmt).1
    simp only [dbms_sql_parse, ha, hp]
    norm_num [open_cursor, close_cursor, rewriteText, parseVars, hnv, zeroCursor]
  · exact rewriteFuel_fresh (stmt.length + 1) stmt 0 [] 0 (by simp)

/-- Concrete application of `C8_reparse_resets`: re-parsing `c8pre` (which
holds a bound variable `old` and a defined column) leaves a fresh table built
only from the new text. -/
theorem C8_reparse_resets_witness :
    dbms_sql_parse c8pre (some "select :a".toList) =
      .ok { zeroCursor with
            cid := 5, cursor_cxt := true, assigned := true,
            original_query := some "select :a".toList,
            parsed_query := some (rewriteText "select :a".toList),
            variables' := parseVars "select :a".toList,
            nvariables := (parseVars "select :a".toList).length } :=
  (C8_reparse_resets c8pre "select :a".toList "select $1".toList rfl rfl).1

/-! ### Column table lemmas -/

theorem lookupCol_none_forall {p : Int} : ∀ {cols : List ColumnData},
    lookupCol p cols = Option.none → ∀ col ∈ cols, col.position ≠ p := by
  intro cols
  induction cols with
  | nil => intro _ col hc; simp at hc
  | cons d ds ih =>
    intro h col hc
    simp only [lookupCol] at h
    by_cases hd : d.position = p
    · rw [if_pos hd] at h; exact Option.noConfusion h
    · rw [if_neg hd] at h
      rcases List.mem_cons.mp hc with rfl | hc'
      · exact hd
      · exact ih h col hc'

theorem updateColAt_append (p : Int) (f : ColumnData → ColumnData)
    (x : ColumnData) (hx : x.position = p) : ∀ {cols : List ColumnData},
    (∀ col ∈ cols, col.position ≠ p) →
    updateColAt p f (cols ++ [x]) = cols ++ [f x] := by
  intro cols
  induction cols with
  | nil => intro _; simp [updateColAt, hx]
  | cons d ds ih =>
    intro h
    simp only [List.cons_append, updateColAt, List.append_eq]
    rw [if_neg (h d (List.mem_cons_self d ds))]
    rw [ih (fun col hc => h col (List.mem_cons_of_mem d hc))]

/-- C4 (amended): when `define_column` fails because the size argument is
NULL, the failing call has *already* created the column entry (here: at a
previously undefined position) and recorded its resolved declared type, and
has updated the maximum declared position — the error does not undo this.
All other cursor state (variables, query texts, execution flag) is
unchanged. -/
theorem C4_define_column_null_size (cat : Catalog) (c : CursorData) (pos : Int)
    (vt : Nat) (ha : c.assigned = true)
    (hfresh : lookupCol pos c.columns = Option.none) (hvt : vt ≠ RECORDOID) :
    dbms_sql_define_column cat c (some pos) vt Option.none =
      .error (.sizeNull,
        { c with
          max_colpos := if c.max_colpos < pos then pos else c.max_colpos,
          columns := c.columns ++
            [{ position := pos,
               typoid := if cat.getBaseType vt = UNKNOWNOID then TEXTOID
                         else cat.getBaseType vt }] }) := by
  simp only [dbms_sql_define_column, ha, get_col_append, hfresh]
  norm_num [hvt]
  rw [updateColAt_append pos _ _ rfl (lookupCol_none_forall hfresh)]

/-- Concrete application of `C4_define_column_null_size`. -/
theorem C4_define_column_null_size_witness :
    dbms_sql_define_column natCat c4pre (some 2) 1700 Option.none =
      .error (.sizeNull,
        { c4pre with
          max_colpos := 2,
          columns := [{ position := 2, typoid := 1700 }] }) :=
  C4_define_column_null_size natCat c4pre 2 1700 rfl rfl (by decide)

/-- C4 counterexample: `define_column(c4pre, 1, text, NULL)` raises the
missing-size error, but the cursor's column-definition table afterwards is
*not* the one from before the call — the entry at position 1 exists with
`text` recorded as its type and the max declared position was raised. -/
theorem C4_counterexample :
    dbms_sql_define_column natCat c4pre (some 1) TEXTOID Option.none =
      .error (.sizeNull, c4post) ∧
    c4post.columns ≠ c4pre.columns ∧ c4post.max_colpos ≠ c4pre.max_colpos := by
  exact ⟨rfl, by decide, by decide⟩

/-- C7: `execute` on a parsed cursor whose column-definition table is empty
does not bring the cursor to the EXECUTED state: the call returns
successfully (with result 0, skipping the whole execution block), but the
`executed` flag remains false and no column appears. -/
theorem C7_execute_no_columns (eng : Option Nat) (c : CursorData)
    (ha : c.assigned = true) (hcols : c.columns = []) (hex : c.executed = false) :
    ∃ c', dbms_sql_execute eng c = .ok (0, c') ∧ c'.executed = false ∧
      c'.columns = [] := by
  by_cases hx : c.cursor_xact_cxt = false
  · refine ⟨{ c with cursor_xact_cxt := true }, ?_, hex, hcols⟩
    simp only [dbms_sql_execute, ha, hx]
    norm_num [hcols]
  · refine ⟨{ c with casts := false, tupdesc := false, tuples_cxt := false },
      ?_, hex, hcols⟩
    simp only [dbms_sql_execute, ha, hx]
    norm_num [hcols]

/-- Concrete application of `C7_execute_no_columns` to the fixture `c7cur`. -/
theorem C7_execute_no_columns_witness :
    ∃ c', dbms_sql_execute (some 1) c7cur = .ok (0, c') ∧ c'.executed = false ∧
      c'.columns = [] :=
  C7_execute_no_columns (some 1) c7cur rfl rfl rfl

/-- C1: evaluation of the execute parameter-array assembly on a cursor with
two bound variables (ordinals 1 and 2). Because the loop index `i` is never
incremented in the source (dbms_sql.c:638-656), both variables write slot 0:
the arrays end up holding the *last* variable's type/value/null flag at index
0 and nothing at index 1 — not the ordinal-ordered arrays the claim
describes (which would be `types = [some 25, some 23]`,
`values = [some 11, some 22]`). -/
theorem C1_execute_parameter_arrays :
    build_query_args [c1varA, c1varB] 2 =
      .ok { values := [some 22, Option.none], types := [some 23, Option.none],
            nulls := [some ' ', Option.none] } ∧
    [some 23, (Option.none : Option Nat)] ≠ [some c1varA.typoid, some c1varB.typoid] := by
  exact ⟨rfl, by decide⟩

/-- C2: the position range check of `column_value` is written
`pos < 1 && pos > natts` (dbms_sql.c:881) and is therefore unsatisfiable: on
an executed, fetched cursor with one declared column, both position 2 and
position 0 pass the validation (`.ok` means the function proceeds to index
the cast cache with that position), and no out-of-range error is ever
raised; on an unexecuted cursor the failure is the not-executed error, not
the out-of-range one the claim requires. -/
theorem C2_column_value_range_check :
    dbms_sql_column_value_check c2exec (some 2) = .ok 2 ∧
    dbms_sql_column_value_check c2exec (some 0) = .ok 0 ∧
    dbms_sql_column_value_check { c2exec with executed := false } (some 2) =
      .error .notExecuted ∧
    (∀ pos natts : Int, 0 ≤ natts → ¬(pos < 1 ∧ pos > natts)) := by
  refine ⟨rfl, rfl, rfl, ?_⟩
  intro pos natts h
  omega

/-- C10: the cursor-id range check of `get_cursor` is written
`cid < 0 && cid >= MAX_CURSORS` (dbms_sql.c:187) and is therefore
unsatisfiable: both id 100 (= MAX_CURSORS) and id -1 pass the validation and
the function proceeds to index the pool array `cursors[cid]` outside
[0, 100). -/
theorem C10_cursor_id_range :
    get_cursor_check (some MAX_CURSORS) = .ok 100 ∧
    get_cursor_check (some (-1)) = .ok (-1) ∧
    ¬ ((0:Int) ≤ 100 ∧ 100 < MAX_CURSORS) ∧ ¬ ((0:Int) ≤ -1) := by
  exact ⟨rfl, rfl, by decide, by decide⟩

/-! ### Dollar-quoted strings pass through the rewriter verbatim -/

theorem identChar_not_dollar {c : Char} (h : identChar c = true) :
    (c == '$') = false := by
  by_cases hc : c = '$'
  · subst hc
    exact absurd h (by decide)
  · exact beq_eq_false_iff_ne.mpr hc

theorem scanDollarTag_tag {tag : List Char} (h : tag.all identChar = true) :
    ∀ r : List Char, scanDollarTag (tag ++ '$' :: r) = some tag.length := by
  induction tag with
  | nil => intro r; simp [scanDollarTag]
  | cons c cs ih =>
    intro r
    simp only [List.all_cons, Bool.and_eq_true] at h
    simp only [List.cons_append, scanDollarTag, List.append_eq]
    rw [if_neg (by simp [identChar_not_dollar h.1]), if_pos h.1, ih h.2]
    rfl

theorem dollarGuard_mk {tag : List Char} (hhd : tagHeadOK tag = true)
    (hall : tag.all identChar = true) (A : List Char) :
    dollarGuard (tag ++ '$' :: A) = true := by
  cases tag with
  | nil => simp [dollarGuard]
  | cons c cs =>
    simp only [tagHeadOK, Bool.or_eq_true, beq_iff_eq] at hhd
    simp only [List.cons_append, dollarGuard, Bool.or_eq_true, beq_iff_eq]
    tauto

/-- C9: a custom-delimited string `$tag$content$tag$` (tag characters drawn
from the identifier alphabet, first tag character not a digit, and the
closing separator's occurrence being the first occurrence of `$tag$` after
the opening one) is consumed as a single `TOKEN_DOLAR_STR` whose emission in
the rewritten statement is the byte-identical `$tag$content$tag$`, with the
bind-variable table left completely untouched — no placeholder inside the
delimited region is substituted or recorded. The spec's concrete example
`$tag$it's a :x$tag$` rewrites to itself and creates no variable. -/
theorem C9_dollar_passthrough (tag content rest : List Char)
    (hall : tag.all identChar = true) (hhd : tagHeadOK tag = true)
    (hocc : ∀ i, i < content.length →
      ¬ mkSep tag <+: (content ++ mkSep tag ++ rest).drop i) :
    next_token (mkDollarStr tag content ++ rest) =
      some ({ typ := .dolarStr, tok := content, sep := mkSep tag,
              raw := mkDollarStr tag content, term := true }, rest) ∧
    (∀ (f : Nat) (off : Int) (vars : List VariableData) (nv : Nat),
      rewriteFuel (f + 1) (mkDollarStr tag content ++ rest) off vars nv =
        (mkDollarStr tag content ++
            (rewriteFuel f rest (off + ((mkDollarStr tag content).length : Int))
              vars nv).1,
         (rewriteFuel f rest (off + ((mkDollarStr tag content).length : Int))
            vars nv).2)) ∧
    rewriteText dollarEx = dollarEx ∧ parseVars dollarEx = [] := by
  have hshape : mkDollarStr tag content ++ rest =
      '$' :: (tag ++ '$' :: (content ++ mkSep tag ++ rest)) := by
    simp [mkDollarStr, mkSep]
  have htok : next_token (mkDollarStr tag content ++ rest) =
      some ({ typ := .dolarStr, tok := content, sep := mkSep tag,
              raw := mkDollarStr tag content, term := true }, rest) := by
    rw [hshape]
    simp only [next_token]
    rw [if_neg (by decide), if_pos]
    · rw [scanDollarTag_tag hall (content ++ mkSep tag ++ rest)]
      have htake : (tag ++ '$' :: (content ++ mkSep tag ++ rest)).take tag.length
          = tag := List.take_left' rfl
      have hdrop : (tag ++ '$' :: (content ++ mkSep tag ++ rest)).drop
          (tag.length + 1) = content ++ mkSep tag ++ rest := by
        rw [← List.drop_drop, List.drop_left]
        rfl
      simp only [htake, hdrop]
      have hsep : ('$' :: (tag ++ ['$']) : List Char) = mkSep tag := rfl
      have hpre : mkSep tag <+: (content ++ mkSep tag ++ rest).drop content.length := by
        rw [List.append_assoc, List.drop_left]
        exact List.prefix_append _ _
      have hfind : findSubstr (mkSep tag) (content ++ mkSep tag ++ rest) =
          some content.length := findSubstr_first hocc hpre
      rw [hsep, hfind]
      have htake2 : (content ++ mkSep tag ++ rest).take content.length = content := by
        rw [List.append_assoc]
        exact List.take_left' rfl
      have hdrop2 : (content ++ mkSep tag ++ rest).drop
          (content.length + (mkSep tag).length) = rest := by
        rw [List.append_assoc, ← List.drop_drop, List.drop_left, List.drop_left]
      simp only [htake2, hdrop2]
      refine congrArg some (Prod.ext ?_ rfl)
      simp [mkDollarStr, mkSep]
    · rw [Bool.and_eq_true, beq_iff_eq]
      exact ⟨rfl, dollarGuard_mk hhd hall _⟩
  refine ⟨htok, ?_, by decide, by decide⟩
  intro f off vars nv
  simp only [rewriteFuel, htok]
  have hemit : emitTok { typ := .dolarStr, tok := content, sep := mkSep tag,
                         raw := mkDollarStr tag content, term := true }
      vars nv off = (mkDollarStr tag content, vars, nv) := by
    simp [emitTok, mkDollarStr]
  rw [hemit]

/-- Concrete application of `C9_dollar_passthrough`: the spec's example text
is consumed as one dollar-string token reproduced verbatim. -/
theorem C9_dollar_passthrough_witness :
    next_token dollarEx =
      some ({ typ := .dolarStr, tok := ("it".toList ++ '\'' :: "s a :x".toList),
              sep := "$tag$".toList, raw := dollarEx, term := true }, []) := by
  have h := (C9_dollar_passthrough "tag".toList
      ("it".toList ++ '\'' :: "s a :x".toList) [] (by decide) (by decide)
      (by decide)).1
  exact h.trans (by decide)

/-! ### The fetch loop: 1 for each available row, then 0 forever -/

theorem fetch_inv_step {k n : Nat} {c : CursorData} (h : FetchInv k n c) :
    ∃ c', dbms_sql_fetch_rows k c = .ok ((if n + 1 ≤ k then 1 else 0), c') ∧
      FetchInv k (n + 1) c' := by
  obtain ⟨ha, he, hp, hs⟩ := h
  have hg : dbms_sql_fetch_rows k c =
      (let c1 := if c.nread = c.processed then
          { c with tuples_cxt := true, tupdesc := true,
                   fetched := c.fetched + min 10 (k - c.fetched),
                   processed := min 10 (k - c.fetched), nread := 0 }
        else c
       let c2 := if c1.nread ≤ c1.processed then { c1 with nread := c1.nread + 1 }
        else c1
       .ok (if c2.nread ≤ c2.processed then 1 else 0, c2)) := by
    simp [dbms_sql_fetch_rows, ha, he, hp]
  rcases hs with ⟨hnk, h1, h2, h3, h4⟩ | ⟨hnk, hf, hpr, hnr⟩
  · have hb10 : min 10 (k - c.fetched) ≤ 10 := Nat.min_le_left _ _
    have hbr : min 10 (k - c.fetched) ≤ k - c.fetched := Nat.min_le_right _ _
    by_cases hd : c.nread = c.processed
    · have hfe : c.fetched = n := by omega
      by_cases hlt : n < k
      · have hb1 : 1 ≤ min 10 (k - c.fetched) :=
          Nat.le_min.mpr ⟨by norm_num, by omega⟩
        refine ⟨{ c with tuples_cxt := true, tupdesc := true,
                         fetched := c.fetched + min 10 (k - c.fetched),
                         processed := min 10 (k - c.fetched), nread := 1 }, ?_, ?_⟩
        · rw [hg]
          simp only [if_pos hd]
          norm_num
          split_ifs <;> omega
        · exact ⟨ha, he, hp, Or.inl ⟨by omega, by simpa using hb1, by simp <;> omega,
            by simp <;> omega, by simp <;> omega⟩⟩
      · have hkn : n = k := by omega
        have hb0 : min 10 (k - c.fetched) = 0 := by
          rw [hfe, hkn]
          simp
        refine ⟨{ c with tuples_cxt := true, tupdesc := true,
                         fetched := c.fetched + min 10 (k - c.fetched),
                         processed := min 10 (k - c.fetched), nread := 1 }, ?_, ?_⟩
        · rw [hg]
          simp only [if_pos hd]
          norm_num
          split_ifs <;> omega
        · exact ⟨ha, he, hp, Or.inr ⟨by omega, by simp [hb0] <;> omega, by simp [hb0],
            by simp⟩⟩
    · have hlt' : c.nread < c.processed := by omega
      have hnk' : n + 1 ≤ k := by omega
      refine ⟨{ c with nread := c.nread + 1 }, ?_, ?_⟩
      · rw [hg]
        simp only [if_neg hd]
        rw [if_pos h1]
        have hres : (if c.nread + 1 ≤ c.processed then (1:Nat) else 0)
            = if n + 1 ≤ k then 1 else 0 := by
          split_ifs <;> omega
        rw [hres]
      · exact ⟨ha, he, hp, Or.inl ⟨hnk', by simp <;> omega, by simp <;> omega,
          by simp <;> omega, by simp <;> omega⟩⟩
  · have hd : ¬ c.nread = c.processed := by omega
    have hn2 : ¬ c.nread ≤ c.processed := by omega
    refine ⟨c, ?_, ⟨ha, he, hp, Or.inr ⟨by omega, hf, hpr, hnr⟩⟩⟩
    rw [hg]
    simp only [if_neg hd]
    rw [if_neg hn2]
    have hres : (if c.nread ≤ c.processed then (1:Nat) else 0)
        = if n + 1 ≤ k then 1 else 0 := by
      split_ifs <;> omega
    rw [hres]

theorem fetch_state_invariant {k : Nat} {c : CursorData}
    (ha : c.assigned = true) (he : c.executed = true) (hp : c.portal = true)
    (h1 : c.processed = 0) (h2 : c.nread = 0) (h3 : c.fetched = 0) :
    ∀ n, FetchInv k n (fetch_state k c n) := by
  intro n
  induction n with
  | zero =>
    refine ⟨ha, he, hp, Or.inl ⟨Nat.zero_le k, ?_, ?_, ?_, ?_⟩⟩ <;>
      simp [fetch_state, h1, h2, h3]
  | succ n ih =>
    obtain ⟨c', hok, hinv⟩ := fetch_inv_step ih
    simpa [fetch_state, hok] using hinv

/-- C6: for a freshly executed cursor over a `k`-row source, each of the
first `k` `fetch_rows` calls returns 1 and every later call returns 0,
forever (the buffer being refilled from the engine in batches of
`min 10 remaining` rows whenever the read position catches up with the
buffered count). -/
theorem C6_fetch_rows_exhaustion (k : Nat) (c : CursorData) (n : Nat)
    (ha : c.assigned = true) (he : c.executed = true) (hp : c.portal = true)
    (h1 : c.processed = 0) (h2 : c.nread = 0) (h3 : c.fetched = 0)
    (hn : 1 ≤ n) :
    fetch_result k c n = some (if n ≤ k then 1 else 0) := by
  obtain ⟨c', hok, _⟩ :=
    fetch_inv_step (fetch_state_invariant ha he hp h1 h2 h3 (n - 1))
  have hsucc : n - 1 + 1 = n := by omega
  rw [hsucc] at hok
  rw [fetch_result, hok]

/-- Concrete application of `C6_fetch_rows_exhaustion` with a 2-row source:
the first two calls return 1, the third returns 0. -/
theorem C6_fetch_rows_exhaustion_witness :
    fetch_result 2 c6exec 1 = some 1 ∧ fetch_result 2 c6exec 2 = some 1 ∧
    fetch_result 2 c6exec 3 = some 0 := by
  refine ⟨?_, ?_, ?_⟩
  · have h := C6_fetch_rows_exhaustion 2 c6exec 1 rfl rfl rfl rfl rfl rfl
      (by decide)
    simpa using h
  · have h := C6_fetch_rows_exhaustion 2 c6exec 2 rfl rfl rfl rfl rfl rfl
      (by decide)
    simpa using h
  · have h := C6_fetch_rows_exhaustion 2 c6exec 3 rfl rfl rfl rfl rfl rfl
      (by decide)
    simpa using h

end DS
